import Mathlib

/-!
Verification development for the "pomodoro-timer" single-page application.

Modelling conventions, used throughout:

* JavaScript numbers are modelled as rationals; machine timestamps
  (millisecond epoch values from Date.now and Date#getTime) and second or
  minute counters are modelled as integers, since the program only ever
  stores integral values in them.  The ISO-8601 timestamp strings stored in
  log records are represented by their epoch-millisecond value: the
  conversions Date#toISOString and new Date(iso).getTime() are an
  order-preserving bijection between the two representations, so every
  comparison and subtraction the program performs on parsed timestamps is
  preserved.
* Math.round x is floor (x + 1/2) and Math.ceil is the integer ceiling,
  exact for the rational model.
* Fire-and-forget side effects (the completion notification plus sound) are
  recorded in the state as a list of (task, plannedMinutes) invocations of
  the side-effect sink; the audio rendering itself has no observable state.
* The derivation of a dateKey from a start instant (toDateKey, which
  formats the local calendar date) is timezone dependent, so every
  definition that writes a log record is parametrised over an arbitrary
  function dateKeyOf from epoch milliseconds to strings.
-/

namespace Pomodoro

/-- Math.round for a finite JavaScript number: floor (x + 1/2). -/
def jsRound (q : ℚ) : ℤ := ⌊q + 1/2⌋

/-- Math.ceil for a finite JavaScript number. -/
def jsCeil (q : ℚ) : ℤ := ⌈q⌉

/-- src/lib/timer.ts: export const MIN_MINUTES = 0. -/
def MIN_MINUTES : ℤ := 0

/-- src/lib/timer.ts: export const MAX_MINUTES = 180. -/
def MAX_MINUTES : ℤ := 180

/-- src/lib/timer.ts clampMinutes: a non-finite input (modelled as none)
yields 25, a finite input is rounded and clamped into
[MIN_MINUTES, MAX_MINUTES]. -/
def clampMinutes (value : Option ℚ) : ℤ :=
  match value with
  | none => 25
  | some q => min MAX_MINUTES (max MIN_MINUTES (jsRound q))

/-- src/lib/types.ts TimeLog.  The startedAt and endedAt ISO strings are
represented by their epoch-millisecond values (see the module comment). -/
structure TimeLog where
  id : String
  task : String
  plannedMinutes : ℤ
  actualSeconds : ℤ
  startedAt : ℤ
  endedAt : ℤ
  dateKey : String
deriving DecidableEq, Repr

/-- src/lib/types.ts LaneLog: a TimeLog together with an assigned lane. -/
structure LaneLog extends TimeLog where
  lane : ℕ
deriving DecidableEq, Repr

/-- One insertion step of the stable sort used by assignLanes: the new
record is placed after every record whose startedAt is not larger, which is
exactly the stable ascending order produced by Array#sort with the
comparator (a, b) => startedAt a - startedAt b. -/
def insertLog (x : TimeLog) : List TimeLog → List TimeLog
  | [] => [x]
  | y :: ys => if y.startedAt ≤ x.startedAt then y :: insertLog x ys else x :: y :: ys

/-- Helper of sortByStart: fold the pending records into the sorted
accumulator. -/
def sortPush (acc : List TimeLog) : List TimeLog → List TimeLog
  | [] => acc
  | x :: xs => sortPush (insertLog x acc) xs

/-- src/lib/timer.ts assignLanes, step 1: [...logs].sort by startedAt
(stable insertion sort over the parsed start instants). -/
def sortByStart (logs : List TimeLog) : List TimeLog := sortPush [] logs

/-- src/lib/timer.ts assignLanes: laneEndTimes.findIndex
(laneEnd => laneEnd <= start), returning the first free lane index. -/
def findFreeLane (start : ℤ) : List ℤ → Option ℕ
  | [] => none
  | e :: rest => if e ≤ start then some 0 else (findFreeLane start rest).map (· + 1)

/-- src/lib/timer.ts assignLanes, main loop over the sorted records: assign
the first lane whose end time is at most the start of the record (updating
that lane end), otherwise append a new lane. -/
def assignLoop : List TimeLog → List ℤ → List LaneLog × List ℤ
  | [], lanes => ([], lanes)
  | log :: rest, lanes =>
    match findFreeLane log.startedAt lanes with
    | some i =>
      let r := assignLoop rest (lanes.set i log.endedAt)
      (⟨log, i⟩ :: r.1, r.2)
    | none =>
      let r := assignLoop rest (lanes ++ [log.endedAt])
      (⟨log, lanes.length⟩ :: r.1, r.2)

/-- Return value of assignLanes: { logs, laneCount }. -/
structure LaneAssignment where
  logs : List LaneLog
  laneCount : ℕ
deriving DecidableEq, Repr

/-- src/lib/timer.ts assignLanes. -/
def assignLanes (logs : List TimeLog) : LaneAssignment :=
  let r := assignLoop (sortByStart logs) []
  ⟨r.1, max 1 r.2.length⟩

/-- The instant t lies in the half-open interval [startedAt, endedAt) of a
record. -/
def covers (t : ℤ) (r : TimeLog) : Bool := decide (r.startedAt ≤ t) && decide (t < r.endedAt)

/-- Number of records of the list whose interval contains the instant t. -/
def overlapAt (logs : List TimeLog) (t : ℤ) : ℕ := logs.countP (covers t)

/-- Maximum number of simultaneously overlapping intervals of the list.  It
suffices to scan the start instants of the records: every nonempty set of
pairwise-overlapping intervals contains the start of its latest-starting
member. -/
def maxOverlap (logs : List TimeLog) : ℕ :=
  (logs.map (fun r => overlapAt logs r.startedAt)).foldr max 0

/-- Two records overlap as half-open intervals [startedAt, endedAt). -/
def overlaps (a b : TimeLog) : Prop := a.startedAt < b.endedAt ∧ b.startedAt < a.endedAt

/-- Comparator order of the assignLanes sort: ascending startedAt. -/
def startLE (a b : TimeLog) : Prop := a.startedAt ≤ b.startedAt

/-- Loop invariant of assignLoop, relating the already-assigned records
out, the current lane end times lanes, and the still-pending sorted
records pend to the original record list orig: the processed records all
start no later than any pending one, the pending list is sorted, nothing
has been lost (permutation), records sharing a lane are chronologically
disjoint, every assigned lane is in range with its stored end time
dominating the ends of its records, every lane end time is the end of some
record of the lane, and the number of lanes never exceeds the maximum
simultaneous overlap of the input. -/
def LaneInv (orig : List TimeLog) (out : List LaneLog) (lanes : List ℤ)
    (pend : List TimeLog) : Prop :=
  (∀ x ∈ out, ∀ y ∈ pend, x.startedAt ≤ y.startedAt) ∧
  pend.Pairwise startLE ∧
  (out.map LaneLog.toTimeLog ++ pend).Perm orig ∧
  out.Pairwise (fun x y => x.lane = y.lane → x.endedAt ≤ y.startedAt) ∧
  (∀ x ∈ out, x.lane < lanes.length ∧ x.endedAt ≤ lanes.getD x.lane 0) ∧
  (∀ i, i < lanes.length → ∃ x ∈ out, x.lane = i ∧ lanes.getD i 0 = x.endedAt) ∧
  (lanes = [] ∨ lanes.length ≤ maxOverlap orig)

instance (a b : TimeLog) : Decidable (overlaps a b) := by
  unfold overlaps; infer_instance

/-! ## Persistence layer (src/lib/storage.ts)

localStorage holds, under the log key, either nothing or a JSON document;
JSON documents are modelled by the inductive JValue below, with
JSON.stringify and JSON.parse the identity on this representation (the
textual serialisation of a JSON document parses back to the same document).
A log record as it appears in the persisted JSON keeps the string form of
its timestamps, so it is modelled by a dedicated structure JsLog whose
fields are exactly the properties that loadLogs validates. -/

/-- A parsed JSON document. -/
inductive JValue where
  | null : JValue
  | bool (b : Bool) : JValue
  | num (q : ℚ) : JValue
  | str (s : String) : JValue
  | arr (items : List JValue) : JValue
  | obj (fields : List (String × JValue)) : JValue

/-- The JSON null document. -/
def JValue.isNull : JValue → Bool
  | JValue.null => true
  | _ => false

/-- Property access entry.k on a parsed JSON object: the last binding wins,
as in JSON.parse. -/
def getField (fields : List (String × JValue)) (k : String) : Option JValue :=
  (fields.reverse.find? (fun p => p.1 == k)).map (fun p => p.2)

/-- The value exists and is a string (typeof entry.k === 'string'). -/
def asStr : Option JValue → Option String
  | some (JValue.str s) => some s
  | _ => none

/-- The value exists and is a number (typeof entry.k === 'number'). -/
def asNum : Option JValue → Option ℚ
  | some (JValue.num q) => some q
  | _ => none

/-- A well-typed log record as persisted: the shape of
src/lib/types.ts TimeLog at the JSON level (timestamps still strings,
numeric fields arbitrary JavaScript numbers). -/
structure JsLog where
  id : String
  task : String
  plannedMinutes : ℚ
  actualSeconds : ℚ
  startedAt : String
  endedAt : String
  dateKey : String
deriving DecidableEq, Repr

/-- JSON.stringify of one log record: a JSON object with exactly the seven
TimeLog properties. -/
def encodeLog (l : JsLog) : JValue :=
  JValue.obj
    [("id", JValue.str l.id),
     ("task", JValue.str l.task),
     ("plannedMinutes", JValue.num l.plannedMinutes),
     ("actualSeconds", JValue.num l.actualSeconds),
     ("startedAt", JValue.str l.startedAt),
     ("endedAt", JValue.str l.endedAt),
     ("dateKey", JValue.str l.dateKey)]

/-- src/lib/storage.ts loadLogs, filter predicate: an entry is kept exactly
when all seven properties exist with the expected typeof.  (The source
keeps the entry object itself; this model extracts the seven validated
fields, which is the same record for a well-typed entry.) -/
def decodeEntry (v : JValue) : Option JsLog :=
  match v with
  | JValue.obj fields =>
    match asStr (getField fields ("id")), asStr (getField fields ("task")),
          asNum (getField fields ("plannedMinutes")), asNum (getField fields ("actualSeconds")),
          asStr (getField fields ("startedAt")), asStr (getField fields ("endedAt")),
          asStr (getField fields ("dateKey")) with
    | some i, some t, some pm, some a, some sa, some ea, some dkey =>
        some ⟨i, t, pm, a, sa, ea, dkey⟩
    | _, _, _, _, _, _, _ => none
  | _ => none

/-- src/lib/storage.ts saveLogs: localStorage.setItem(LOG_KEY,
JSON.stringify(logs)), i.e. the stored document becomes the JSON array of
the encoded records. -/
def saveLogs (logs : List JsLog) : Option JValue :=
  some (JValue.arr (logs.map encodeLog))

/-- src/lib/storage.ts loadLogs: no stored value or a non-array document
yields []; a null entry makes the filter callback throw (null.id), and the
surrounding try/catch then yields []; otherwise the array is filtered to
its well-typed entries (property access on any other non-object entry
yields undefined, which fails the typeof checks). -/
def loadLogs (store : Option JValue) : List JsLog :=
  match store with
  | none => []
  | some (JValue.arr items) =>
    if items.any JValue.isNull then [] else items.filterMap decodeEntry
  | some _ => []

/-! ## Timer session state machine, deadline-based work-only variant
(App.tsx of src/unnamed/part_002)

The component state that carries the session logic is modelled by WState;
presentation-only state (the wall clock string and the completion-flash
flag) is omitted.  An operation of the program is a user event on a
control that the component actually renders, or a callback the component
actually schedules, so each case of stepW guards the corresponding handler
with the render or scheduling condition from the JSX:

* start     - button rendered only while status is idle or done;
* pause     - button rendered only while running;
* resume    - button rendered only while paused;
* reset     - button always rendered;
* configure - the minutes input and the quick-adjust buttons carry
              disabled = not canEditSetting, so the change event can only
              fire while status is idle or done;
* sync      - the 250 ms reconciliation interval exists only while
              running (the effect returns before scheduling otherwise);
* timeoutFire - the completion effect body runs exactly when
              status === running and remainingSeconds === 0.

Events carry the data the handler reads from the environment: the current
instant Date.now(), the resolved task string (taskInput.trim() with the
default task name already applied), the fresh crypto.randomUUID() value,
and the raw minutes input for configure. -/

/-- src/lib/types.ts TimerStatus. -/
inductive Status where
  | idle | running | paused | done
deriving DecidableEq, Repr

/-- SessionMeta of App.tsx: the descriptor retained in sessionRef while a
session is running or paused (startedAt as epoch milliseconds). -/
structure SessionMeta where
  startedAt : ℤ
  plannedMinutes : ℤ
  task : String
deriving DecidableEq, Repr

/-- Component state of the part_002 variant. -/
structure WState where
  setMinutes : ℤ
  remainingSeconds : ℤ
  status : Status
  session : Option SessionMeta
  deadline : Option ℤ
  logs : List TimeLog
  notifications : List (String × ℤ)
deriving DecidableEq, Repr

/-- Operations of the part_002 variant. -/
inductive WEvent where
  | start (now : ℤ) (task : String)
  | pause (now : ℤ)
  | resume (now : ℤ)
  | reset
  | configure (minutes : Option ℚ)
  | sync (now : ℤ)
  | timeoutFire (now : ℤ) (id : String)
deriving DecidableEq, Repr

/-- Remaining seconds derived from the absolute deadline:
Math.max(0, Math.ceil((deadline - Date.now()) / 1000)). -/
def remainingOf (deadline now : ℤ) : ℤ :=
  max 0 (jsCeil (((deadline - now : ℤ) : ℚ) / 1000))

/-- onStart handler body (part_002 lines 260-283).  requestNotification
Permission only asks for browser permission and is stateless here. -/
def wStartHandler (s : WState) (now : ℤ) (task : String) : WState :=
  if s.status = Status.running ∨ s.setMinutes ≤ 0 then s
  else if s.status = Status.idle ∨ s.status = Status.done then
    { s with
        session := some ⟨now, s.setMinutes, task⟩,
        remainingSeconds := s.setMinutes * 60,
        deadline := some (now + s.setMinutes * 60 * 1000),
        status := Status.running }
  else { s with status := Status.running }

/-- onPause handler body (part_002 lines 285-294). -/
def wPauseHandler (s : WState) (now : ℤ) : WState :=
  if s.status = Status.running then
    { s with
        remainingSeconds :=
          match s.deadline with
          | some d => remainingOf d now
          | none => s.remainingSeconds,
        deadline := none,
        status := Status.paused }
  else s

/-- onResume handler body (part_002 lines 296-301). -/
def wResumeHandler (s : WState) (now : ℤ) : WState :=
  if s.status = Status.paused then
    { s with
        deadline := some (now + s.remainingSeconds * 1000),
        status := Status.running }
  else s

/-- onReset handler body (part_002 lines 303-309). -/
def wResetHandler (s : WState) : WState :=
  { s with
      session := none,
      deadline := none,
      status := Status.idle,
      remainingSeconds := s.setMinutes * 60 }

/-- applyMinutes handler body (part_002 lines 237-243). -/
def wApplyMinutes (s : WState) (minutes : Option ℚ) : WState :=
  let clamped := clampMinutes minutes
  let s1 := { s with setMinutes := clamped }
  if s.status = Status.idle ∨ s.status = Status.done then
    { s1 with remainingSeconds := clamped * 60 }
  else s1

/-- syncRemaining callback body (part_002 lines 168-175): a null deadline
is left alone, otherwise the displayed remaining seconds are recomputed
from the deadline. -/
def wSyncHandler (s : WState) (now : ℤ) : WState :=
  match s.deadline with
  | none => s
  | some d => { s with remainingSeconds := remainingOf d now }

/-- Completion effect body (part_002 lines 201-227), run when
status === running and remainingSeconds === 0: with a session present, the
log record takes endedAt from the stored deadline (falling back to
Date.now() only if it were null), actualSeconds = max 1 (plannedMinutes *
60), the record is prepended, the notification and sound fire, the session
and deadline are discarded; with no session only the status changes. -/
def wFireHandler (dateKeyOf : ℤ → String) (s : WState) (now : ℤ) (id : String) : WState :=
  match s.session with
  | some sess =>
    let endedAtMs := s.deadline.getD now
    let actualSeconds := max 1 (sess.plannedMinutes * 60)
    let newLog : TimeLog :=
      ⟨id, sess.task, sess.plannedMinutes, actualSeconds, sess.startedAt, endedAtMs,
        dateKeyOf sess.startedAt⟩
    { s with
        logs := newLog :: s.logs,
        notifications := (sess.task, sess.plannedMinutes) :: s.notifications,
        session := none,
        deadline := none,
        status := Status.done }
  | none => { s with status := Status.done }

/-- One operation of the part_002 variant: the render or scheduling guard
(see the section comment) followed by the handler body. -/
def stepW (dateKeyOf : ℤ → String) (s : WState) (e : WEvent) : WState :=
  match e with
  | WEvent.start now task =>
    if s.status = Status.idle ∨ s.status = Status.done then wStartHandler s now task else s
  | WEvent.pause now =>
    if s.status = Status.running then wPauseHandler s now else s
  | WEvent.resume now =>
    if s.status = Status.paused then wResumeHandler s now else s
  | WEvent.reset => wResetHandler s
  | WEvent.configure minutes =>
    if s.status = Status.idle ∨ s.status = Status.done then wApplyMinutes s minutes else s
  | WEvent.sync now =>
    if s.status = Status.running then wSyncHandler s now else s
  | WEvent.timeoutFire now id =>
    if s.status = Status.running ∧ s.remainingSeconds = 0 then wFireHandler dateKeyOf s now id
    else s

/-- Initial component state of the part_002 variant: status idle, both refs
null, remaining seconds derived from the loaded minutes setting, loaded
logs. -/
def initW (m0 : ℤ) (logs0 : List TimeLog) : WState :=
  ⟨m0, m0 * 60, Status.idle, none, none, logs0, []⟩

/-- Run a sequence of operations of the part_002 variant. -/
def runW (dateKeyOf : ℤ → String) (s : WState) (events : List WEvent) : WState :=
  events.foldl (stepW dateKeyOf) s

/-! ## Timer session state machine, work/break variant
(App.tsx of src/unnamed/part_003, second file)

Same modelling conventions as for the part_002 variant.  This variant adds
a work/break mode, a manual-complete button, and break suggestions; the
history-edit and delete controls are outside the claims and omitted.
Render guards from the JSX: start only while idle or done; pause only
while running; resume only while paused; complete only in work mode while
running or paused; skip only in break mode while running or paused; reset
only in work mode; the minutes controls carry disabled = not
canEditSetting where canEditSetting = work mode and (idle or done). -/

/-- TimerMode of the part_003 variant (brk stands for the break mode). -/
inductive Mode where
  | work | brk
deriving DecidableEq, Repr

/-- Component state of the part_003 variant. -/
structure BState where
  setMinutes : ℤ
  remainingSeconds : ℤ
  breakSuggestionSeconds : ℤ
  status : Status
  mode : Mode
  session : Option SessionMeta
  deadline : Option ℤ
  logs : List TimeLog
  notifications : List (String × ℤ)
deriving DecidableEq, Repr

/-- Operations of the part_003 variant. -/
inductive BEvent where
  | start (now : ℤ) (task : String)
  | pause (now : ℤ)
  | resume (now : ℤ)
  | reset
  | complete (now : ℤ) (id : String)
  | skipBreak
  | configure (minutes : Option ℚ)
  | sync (now : ℤ)
  | timeoutFire (now : ℤ) (id : String)
deriving DecidableEq, Repr

/-- toBreakSeconds (part_003 line 578): Math.max(1,
Math.round(plannedMinutes * 60 * 0.2)). -/
def toBreakSeconds (plannedMinutes : ℤ) : ℤ :=
  max 1 (jsRound ((plannedMinutes : ℚ) * 60 * (2/10)))

/-- switchToBreak (part_003 lines 753-760). -/
def switchToBreak (s : BState) (plannedMinutes : ℤ) : BState :=
  let breakSeconds := toBreakSeconds plannedMinutes
  { s with
      mode := Mode.brk,
      status := Status.idle,
      breakSuggestionSeconds := breakSeconds,
      remainingSeconds := breakSeconds,
      deadline := none }

/-- switchToWork (part_003 lines 762-767). -/
def switchToWork (s : BState) : BState :=
  { s with
      mode := Mode.work,
      status := Status.idle,
      remainingSeconds := s.setMinutes * 60,
      deadline := none }

/-- completeWorkSession (part_003 lines 769-800): with no session retained
this is a no-op; otherwise actualSeconds is clamped into
[1, plannedMinutes * 60] (Math.round is the identity on the integral
arguments this function receives), one record is appended at the end of the
history, the notification and sound fire only when requested, the session
and deadline are discarded, and the machine switches to the suggested
break. -/
def completeWorkSession (dateKeyOf : ℤ → String) (s : BState)
    (endedAtMs actualSeconds : ℤ) (withNotification : Bool) (id : String) : BState :=
  match s.session with
  | none => s
  | some sess =>
    let plannedSeconds := sess.plannedMinutes * 60
    let safeActualSeconds := max 1 (min plannedSeconds actualSeconds)
    let newLog : TimeLog :=
      ⟨id, sess.task, sess.plannedMinutes, safeActualSeconds, sess.startedAt, endedAtMs,
        dateKeyOf sess.startedAt⟩
    let s1 :=
      { s with
          logs := s.logs ++ [newLog],
          notifications :=
            if withNotification then (sess.task, sess.plannedMinutes) :: s.notifications
            else s.notifications,
          session := none,
          deadline := none }
    switchToBreak s1 sess.plannedMinutes

/-- onStart handler body (part_003 lines 848-885). -/
def bStartHandler (s : BState) (now : ℤ) (task : String) : BState :=
  if s.status = Status.running then s
  else if s.mode = Mode.brk then
    if s.remainingSeconds ≤ 0 then s
    else
      let s1 :=
        if s.status = Status.idle ∨ s.status = Status.done then
          { s with deadline := some (now + s.remainingSeconds * 1000) }
        else s
      { s1 with status := Status.running }
  else if s.setMinutes ≤ 0 then s
  else
    let s1 :=
      if s.status = Status.idle ∨ s.status = Status.done then
        { s with
            session := some ⟨now, s.setMinutes, task⟩,
            remainingSeconds := s.setMinutes * 60,
            deadline := some (now + s.setMinutes * 60 * 1000) }
      else s
    { s1 with status := Status.running }

/-- onPause handler body (part_003 lines 887-896). -/
def bPauseHandler (s : BState) (now : ℤ) : BState :=
  if s.status = Status.running then
    { s with
        remainingSeconds :=
          match s.deadline with
          | some d => remainingOf d now
          | none => s.remainingSeconds,
        deadline := none,
        status := Status.paused }
  else s

/-- onResume handler body (part_003 lines 898-903). -/
def bResumeHandler (s : BState) (now : ℤ) : BState :=
  if s.status = Status.paused then
    { s with
        deadline := some (now + s.remainingSeconds * 1000),
        status := Status.running }
  else s

/-- onReset handler body (part_003 lines 905-911). -/
def bResetHandler (s : BState) : BState :=
  { s with
      session := none,
      deadline := none,
      mode := Mode.work,
      status := Status.idle,
      remainingSeconds := s.setMinutes * 60 }

/-- onComplete handler body (part_003 lines 917-934); the status and mode
guards of the handler coincide with the render guard applied in stepB. -/
def bCompleteHandler (dateKeyOf : ℤ → String) (s : BState) (now : ℤ) (id : String) : BState :=
  match s.session with
  | none => s
  | some sess =>
    let totalSeconds := sess.plannedMinutes * 60
    let elapsedSeconds := totalSeconds - s.remainingSeconds
    completeWorkSession dateKeyOf s now elapsedSeconds false id

/-- applyMinutes handler body (part_003 lines 825-831), with
canEditSetting = work mode and (idle or done). -/
def bApplyMinutes (s : BState) (minutes : Option ℚ) : BState :=
  let clamped := clampMinutes minutes
  let s1 := { s with setMinutes := clamped }
  if s.mode = Mode.work ∧ (s.status = Status.idle ∨ s.status = Status.done) then
    { s1 with remainingSeconds := clamped * 60 }
  else s1

/-- syncRemaining callback body (part_003 lines 707-714). -/
def bSyncHandler (s : BState) (now : ℤ) : BState :=
  match s.deadline with
  | none => s
  | some d => { s with remainingSeconds := remainingOf d now }

/-- Completion effect body (part_003 lines 802-815), run when
status === running and remainingSeconds === 0: in work mode the session is
finalised with endedAt from the stored deadline (falling back to
Date.now()), the full planned seconds as the duration, and the
notification requested; in break mode the machine returns to work. -/
def bFireHandler (dateKeyOf : ℤ → String) (s : BState) (now : ℤ) (id : String) : BState :=
  if s.mode = Mode.work then
    let endedAtMs := s.deadline.getD now
    let plannedSeconds :=
      (match s.session with
       | some sess => sess.plannedMinutes
       | none => 0) * 60
    completeWorkSession dateKeyOf s endedAtMs plannedSeconds true id
  else switchToWork s

/-- One operation of the part_003 variant: the render or scheduling guard
followed by the handler body. -/
def stepB (dateKeyOf : ℤ → String) (s : BState) (e : BEvent) : BState :=
  match e with
  | BEvent.start now task =>
    if s.status = Status.idle ∨ s.status = Status.done then bStartHandler s now task else s
  | BEvent.pause now =>
    if s.status = Status.running then bPauseHandler s now else s
  | BEvent.resume now =>
    if s.status = Status.paused then bResumeHandler s now else s
  | BEvent.reset =>
    if s.mode = Mode.work then bResetHandler s else s
  | BEvent.complete now id =>
    if s.mode = Mode.work ∧ (s.status = Status.running ∨ s.status = Status.paused) then
      bCompleteHandler dateKeyOf s now id
    else s
  | BEvent.skipBreak =>
    if s.mode = Mode.brk ∧ (s.status = Status.running ∨ s.status = Status.paused) then
      switchToWork s
    else s
  | BEvent.configure minutes =>
    if s.mode = Mode.work ∧ (s.status = Status.idle ∨ s.status = Status.done) then
      bApplyMinutes s minutes
    else s
  | BEvent.sync now =>
    if s.status = Status.running then bSyncHandler s now else s
  | BEvent.timeoutFire now id =>
    if s.status = Status.running ∧ s.remainingSeconds = 0 then bFireHandler dateKeyOf s now id
    else s

/-- Initial component state of the part_003 variant: work mode, status
idle, break suggestion 5 * 60, both refs null. -/
def initB (m0 : ℤ) (logs0 : List TimeLog) : BState :=
  ⟨m0, m0 * 60, 5 * 60, Status.idle, Mode.work, none, none, logs0, []⟩

/-- Run a sequence of operations of the part_003 variant. -/
def runB (dateKeyOf : ℤ → String) (s : BState) (events : List BEvent) : BState :=
  events.foldl (stepB dateKeyOf) s

/-- Expected notification trace of one operation of the part_003 variant,
for comparison with stepB: the side-effect sink receives one invocation
(task, plannedMinutes) exactly when a natural timeout finalises a work
session, and is untouched by every other operation. -/
def notifAfter (s : BState) (e : BEvent) : List (String × ℤ) :=
  match e with
  | BEvent.timeoutFire _ _ =>
    if s.status = Status.running ∧ s.remainingSeconds = 0 ∧ s.mode = Mode.work then
      match s.session with
      | some sess => (sess.task, sess.plannedMinutes) :: s.notifications
      | none => s.notifications
    else s.notifications
  | _ => s.notifications

/-! ## Concrete fixtures used by witnesses and counterexamples -/

/-- A fixed dateKey derivation for concrete runs (its value is irrelevant
to every property below). -/
def dkFix : ℤ → String := fun _ => ""

/-- Record A of the timeline example: 09:00-09:30 as ms offsets. -/
def exA : TimeLog := ⟨"a", "A", 25, 1500, 0, 1800000, "d"⟩

/-- Record B of the timeline example: 09:10-09:20. -/
def exB : TimeLog := ⟨"b", "B", 20, 1200, 600000, 1200000, "d"⟩

/-- Record C of the timeline example: 09:25-09:40. -/
def exC : TimeLog := ⟨"c", "C", 15, 900, 1500000, 2400000, "d"⟩

/-- The three-record overlapping timeline example. -/
def exLogs : List TimeLog := [exA, exB, exC]

/-- A running 25-minute work session of the part_002 variant, started at
instant 0. -/
def wRunFix : WState := stepW dkFix (initW 25 []) (WEvent.start 0 "w")

/-- The 25-minute session of wRunFix paused at instant 700000. -/
def wPausedFix : WState := stepW dkFix wRunFix (WEvent.pause 700000)

/-- A running 25-minute work session of the part_003 variant, reconciled at
instant 30000. -/
def bRunFix : BState :=
  runB dkFix (initB 25 []) [BEvent.start 0 "w", BEvent.sync 30000]

/-- Manual completion of a 25-minute work session of the part_003 variant
one minute in. -/
def bManualFix : BState :=
  runB dkFix (initB 25 []) [BEvent.start 0 "x", BEvent.sync 60000, BEvent.complete 60000 "u"]

/-- A 25-minute work session of the part_003 variant whose reconciliation
callback has just observed the deadline (remaining seconds 0, still
running): the state runB reaches from initB 25 [] after a start at instant
0 followed by a sync at instant 1500000. -/
def bZeroFix : BState :=
  ⟨25, 0, 5 * 60, Status.running, Mode.work, some ⟨0, 25, "w"⟩, some 1500000, [], []⟩

/-! ## Persistence round trip -/

lemma decodeEntry_encodeLog (l : JsLog) : decodeEntry (encodeLog l) = some l := rfl

lemma encodeLog_not_null (l : JsLog) : JValue.isNull (encodeLog l) = false := rfl

lemma loadLogs_saveLogs (logs : List JsLog) : loadLogs (saveLogs logs) = logs := by
  simp only [saveLogs, loadLogs]
  rw [if_neg]
  · induction logs with
    | nil => rfl
    | cons l ls ih => simp [List.filterMap_cons, decodeEntry_encodeLog, ih]
  · simp [List.any_eq_true, encodeLog_not_null]

/-- Claim C9: saving a list of well-typed log records and loading it back
yields the original list, so a load-save-reload cycle without modification
is the identity on the persisted log collection. -/
theorem save_load_roundtrip (logs : List JsLog) :
    loadLogs (saveLogs logs) = logs ∧
    ∀ store : Option JValue, loadLogs (saveLogs (loadLogs store)) = loadLogs store :=
  ⟨loadLogs_saveLogs logs, fun store => loadLogs_saveLogs (loadLogs store)⟩

/-! ## Deadline arithmetic -/

lemma remainingOf_nonneg (d now : ℤ) : 0 ≤ remainingOf d now := le_max_left 0 _

lemma remainingOf_past (d now : ℤ) (h : d ≤ now) : remainingOf d now = 0 := by
  have hc : jsCeil (((d - now : ℤ) : ℚ) / 1000) ≤ 0 := by
    rw [jsCeil]
    have hq : ((d - now : ℤ) : ℚ) / 1000 ≤ ((0 : ℤ) : ℚ) := by
      push_cast
      apply div_nonpos_of_nonpos_of_nonneg
      · rw [sub_nonpos]; exact_mod_cast h
      · norm_num
    exact Int.ceil_le.mpr hq
  unfold remainingOf
  exact max_eq_left hc

lemma remainingOf_resume (r now : ℤ) (hr : 0 ≤ r) :
    remainingOf (now + r * 1000) now = r := by
  have hq : ((now + r * 1000 - now : ℤ) : ℚ) / 1000 = (r : ℚ) := by
    push_cast
    field_simp
  simp [remainingOf, jsCeil, hq, Int.ceil_intCast, max_eq_right hr]

/-! ## Configuration (clampMinutes and applyMinutes) -/

/-- Claim C7: configure clamps its argument into the closed integer range
[0, 180] (a non-finite input yields the default 25), is a complete no-op
while running or paused (the minutes controls are disabled then), and in
idle or done sets the minutes and resets the displayed remaining time to
the clamped minutes times 60 seconds. -/
theorem configure_clamped_and_gated (dateKeyOf : ℤ → String) (s : WState) (minutes : Option ℚ) :
    (MIN_MINUTES ≤ clampMinutes minutes ∧ clampMinutes minutes ≤ MAX_MINUTES) ∧
    clampMinutes none = 25 ∧
    (s.status = Status.running ∨ s.status = Status.paused →
      stepW dateKeyOf s (WEvent.configure minutes) = s) ∧
    (s.status = Status.idle ∨ s.status = Status.done →
      (stepW dateKeyOf s (WEvent.configure minutes)).setMinutes = clampMinutes minutes ∧
      (stepW dateKeyOf s (WEvent.configure minutes)).remainingSeconds = clampMinutes minutes * 60) := by
  refine ⟨?_, rfl, ?_, ?_⟩
  · cases minutes with
    | none => simp [clampMinutes, MIN_MINUTES, MAX_MINUTES]
    | some q =>
      simp only [clampMinutes, MIN_MINUTES, MAX_MINUTES]
      omega
  · intro h
    have h1 : ¬ s.status = Status.idle := by rcases h with h | h <;> simp [h]
    have h2 : ¬ s.status = Status.done := by rcases h with h | h <;> simp [h]
    simp [stepW, h1, h2]
  · intro h
    simp [stepW, h, wApplyMinutes]

/-- Witness for claim C7 at a paused state and at the idle initial state. -/
theorem configure_clamped_and_gated_witness :
    ((wPausedFix.status = Status.running ∨ wPausedFix.status = Status.paused) ∧
      stepW dkFix wPausedFix (WEvent.configure (some 7)) = wPausedFix) ∧
    (((initW 25 []).status = Status.idle ∨ (initW 25 []).status = Status.done) ∧
      (stepW dkFix (initW 25 []) (WEvent.configure (some 7))).setMinutes = clampMinutes (some 7) ∧
      (stepW dkFix (initW 25 []) (WEvent.configure (some 7))).remainingSeconds =
        clampMinutes (some 7) * 60) :=
  ⟨⟨Or.inr (by decide),
    (configure_clamped_and_gated dkFix wPausedFix (some 7)).2.2.1 (Or.inr (by decide))⟩,
   ⟨Or.inl (by decide),
    (configure_clamped_and_gated dkFix (initW 25 []) (some 7)).2.2.2 (Or.inl (by decide))⟩⟩

/-! ## Pause and resume preserve remaining time -/

/-- Claim C5: pausing a running session snapshots
max(0, ceil((deadline - now) / 1000)) seconds, and resuming any time later
recomputes the deadline as now plus that many seconds, so the remaining
seconds in effect immediately after the resume (as recomputed by the
reconciliation callback the status change triggers) equal the snapshot:
no time is lost or gained across the pause boundary, whatever the delay. -/
theorem pause_resume_preserves_remaining (dateKeyOf : ℤ → String) (s : WState)
    (d pauseAt resumeAt : ℤ)
    (hrun : s.status = Status.running) (hd : s.deadline = some d) :
    (stepW dateKeyOf s (WEvent.pause pauseAt)).remainingSeconds = remainingOf d pauseAt ∧
    (stepW dateKeyOf (stepW dateKeyOf s (WEvent.pause pauseAt))
        (WEvent.resume resumeAt)).deadline =
      some (resumeAt + remainingOf d pauseAt * 1000) ∧
    (stepW dateKeyOf
        (stepW dateKeyOf (stepW dateKeyOf s (WEvent.pause pauseAt)) (WEvent.resume resumeAt))
        (WEvent.sync resumeAt)).remainingSeconds = remainingOf d pauseAt := by
  have h1 : stepW dateKeyOf s (WEvent.pause pauseAt) =
      { s with remainingSeconds := remainingOf d pauseAt, deadline := none,
               status := Status.paused } := by
    simp [stepW, hrun, wPauseHandler, hd]
  refine ⟨by rw [h1], ?_, ?_⟩
  · rw [h1]; simp [stepW, wResumeHandler]
  · rw [h1]
    simp [stepW, wResumeHandler, wSyncHandler,
      remainingOf_resume _ _ (remainingOf_nonneg d pauseAt)]

/-- Witness for claim C5: a 25-minute session started at 0, paused at
700000 (remaining 800 seconds), resumed at 2000000. -/
theorem pause_resume_preserves_remaining_witness :
    (wRunFix.status = Status.running ∧ wRunFix.deadline = some 1500000) ∧
    ((stepW dkFix wRunFix (WEvent.pause 700000)).remainingSeconds =
        remainingOf 1500000 700000 ∧
      (stepW dkFix (stepW dkFix wRunFix (WEvent.pause 700000))
          (WEvent.resume 2000000)).deadline =
        some (2000000 + remainingOf 1500000 700000 * 1000) ∧
      (stepW dkFix
          (stepW dkFix (stepW dkFix wRunFix (WEvent.pause 700000)) (WEvent.resume 2000000))
          (WEvent.sync 2000000)).remainingSeconds = remainingOf 1500000 700000) :=
  ⟨⟨by decide, by decide⟩,
    pause_resume_preserves_remaining dkFix wRunFix 1500000 700000 2000000
      (by decide) (by decide)⟩

/-! ## Lifetime of the session descriptor and the deadline (part_002) -/

lemma stepW_inv (dateKeyOf : ℤ → String) (s : WState) (e : WEvent)
    (h1 : s.deadline ≠ none ↔ s.status = Status.running)
    (h2 : s.session ≠ none ↔ (s.status = Status.running ∨ s.status = Status.paused)) :
    ((stepW dateKeyOf s e).deadline ≠ none ↔ (stepW dateKeyOf s e).status = Status.running) ∧
    ((stepW dateKeyOf s e).session ≠ none ↔
      ((stepW dateKeyOf s e).status = Status.running ∨
        (stepW dateKeyOf s e).status = Status.paused)) := by
  obtain ⟨m, r, st, sess, dl, lg, nt⟩ := s
  simp only [ne_eq] at h1 h2 ⊢
  cases e <;> cases st <;> cases sess <;> cases dl <;>
    simp_all [stepW, wStartHandler, wPauseHandler, wResumeHandler, wResetHandler,
      wApplyMinutes, wSyncHandler, wFireHandler] <;>
    split_ifs <;>
    simp_all

lemma runW_inv (dateKeyOf : ℤ → String) (events : List WEvent) :
    ∀ s : WState,
      (s.deadline ≠ none ↔ s.status = Status.running) →
      (s.session ≠ none ↔ (s.status = Status.running ∨ s.status = Status.paused)) →
      ((runW dateKeyOf s events).deadline ≠ none ↔
        (runW dateKeyOf s events).status = Status.running) ∧
      ((runW dateKeyOf s events).session ≠ none ↔
        ((runW dateKeyOf s events).status = Status.running ∨
          (runW dateKeyOf s events).status = Status.paused)) := by
  induction events with
  | nil => exact fun s ha hb => ⟨ha, hb⟩
  | cons e es ih =>
    intro s ha hb
    have h := stepW_inv dateKeyOf s e ha hb
    exact ih (stepW dateKeyOf s e) h.1 h.2

/-- Claim C6: in every state reachable from the initial state by any
sequence of operations, the deadline is present exactly while the status
is running, and the session descriptor is present exactly while the status
is running or paused. -/
theorem session_deadline_lifetime (dateKeyOf : ℤ → String) (m0 : ℤ) (logs0 : List TimeLog)
    (events : List WEvent) :
    ((runW dateKeyOf (initW m0 logs0) events).deadline ≠ none ↔
      (runW dateKeyOf (initW m0 logs0) events).status = Status.running) ∧
    ((runW dateKeyOf (initW m0 logs0) events).session ≠ none ↔
      ((runW dateKeyOf (initW m0 logs0) events).status = Status.running ∨
        (runW dateKeyOf (initW m0 logs0) events).status = Status.paused)) :=
  runW_inv dateKeyOf events (initW m0 logs0) (by simp [initW]) (by simp [initW])

/-! ## Natural timeout records the exact planned duration (part_002) -/

lemma stepW_sync_frame (dateKeyOf : ℤ → String) (s : WState) (n : ℤ) :
    (stepW dateKeyOf s (WEvent.sync n)).status = s.status ∧
    (stepW dateKeyOf s (WEvent.sync n)).session = s.session ∧
    (stepW dateKeyOf s (WEvent.sync n)).deadline = s.deadline ∧
    (stepW dateKeyOf s (WEvent.sync n)).logs = s.logs ∧
    (stepW dateKeyOf s (WEvent.sync n)).notifications = s.notifications := by
  obtain ⟨m, r, st, sess, dl, lg, nt⟩ := s
  by_cases h : st = Status.running <;> cases dl <;> simp [stepW, wSyncHandler, h]

lemma runW_syncs_frame (dateKeyOf : ℤ → String) (ts : List ℤ) :
    ∀ s : WState,
      (runW dateKeyOf s (ts.map WEvent.sync)).status = s.status ∧
      (runW dateKeyOf s (ts.map WEvent.sync)).session = s.session ∧
      (runW dateKeyOf s (ts.map WEvent.sync)).deadline = s.deadline ∧
      (runW dateKeyOf s (ts.map WEvent.sync)).logs = s.logs ∧
      (runW dateKeyOf s (ts.map WEvent.sync)).notifications = s.notifications := by
  induction ts with
  | nil => exact fun s => ⟨rfl, rfl, rfl, rfl, rfl⟩
  | cons n ns ih =>
    intro s
    obtain ⟨i1, i2, i3, i4, i5⟩ := ih (stepW dateKeyOf s (WEvent.sync n))
    obtain ⟨j1, j2, j3, j4, j5⟩ := stepW_sync_frame dateKeyOf s n
    exact ⟨i1.trans j1, i2.trans j2, i3.trans j3, i4.trans j4, i5.trans j5⟩

lemma stepW_sync_running (dateKeyOf : ℤ → String) (s : WState) (n d : ℤ)
    (h : s.status = Status.running) (hd : s.deadline = some d) :
    stepW dateKeyOf s (WEvent.sync n) = { s with remainingSeconds := remainingOf d n } := by
  simp [stepW, h, wSyncHandler, hd]

lemma stepW_fire_finalizes (dateKeyOf : ℤ → String) (s : WState) (n : ℤ) (id : String)
    (d : ℤ) (sess : SessionMeta)
    (h : s.status = Status.running) (hr : s.remainingSeconds = 0)
    (hd : s.deadline = some d) (hsess : s.session = some sess) :
    stepW dateKeyOf s (WEvent.timeoutFire n id) =
      { s with
          logs := ⟨id, sess.task, sess.plannedMinutes, max 1 (sess.plannedMinutes * 60),
            sess.startedAt, d, dateKeyOf sess.startedAt⟩ :: s.logs,
          notifications := (sess.task, sess.plannedMinutes) :: s.notifications,
          session := none,
          deadline := none,
          status := Status.done } := by
  simp [stepW, h, hr, wFireHandler, hsess, hd]

lemma stepW_fire_not_running (dateKeyOf : ℤ → String) (s : WState) (n : ℤ) (id : String)
    (h : ¬ s.status = Status.running) :
    stepW dateKeyOf s (WEvent.timeoutFire n id) = s := by
  simp [stepW, h]

/-- Claim C1: a session started from idle or done with M planned minutes
(1 ≤ M ≤ 180) and finalised by natural timeout produces exactly one log
record with actualSeconds = M * 60 and endedAt - startedAt = M * 60 * 1000
milliseconds, no matter how many reconciliation callbacks fired in between
and no matter how late the zero-crossing callback observed the deadline
(any observation instant t at or after the deadline), because the
finalisation uses the stored absolute deadline as endedAt and the full
planned duration as actualSeconds; a repeated firing changes nothing. -/
theorem natural_timeout_exact (dateKeyOf : ℤ → String) (s : WState) (M now0 : ℤ)
    (task : String) (syncTimes : List ℤ) (t fireAt : ℤ) (id : String)
    (hstart : s.status = Status.idle ∨ s.status = Status.done)
    (hM : s.setMinutes = M) (hM1 : 1 ≤ M) (hM180 : M ≤ 180)
    (ht : now0 + M * 60 * 1000 ≤ t) :
    (stepW dateKeyOf
        (stepW dateKeyOf
          (runW dateKeyOf (stepW dateKeyOf s (WEvent.start now0 task))
            (syncTimes.map WEvent.sync))
          (WEvent.sync t))
        (WEvent.timeoutFire fireAt id)).logs =
      ⟨id, task, M, M * 60, now0, now0 + M * 60 * 1000, dateKeyOf now0⟩ :: s.logs ∧
    (∀ l : TimeLog,
      (stepW dateKeyOf
          (stepW dateKeyOf
            (runW dateKeyOf (stepW dateKeyOf s (WEvent.start now0 task))
              (syncTimes.map WEvent.sync))
            (WEvent.sync t))
          (WEvent.timeoutFire fireAt id)).logs = l :: s.logs →
        l.actualSeconds = M * 60 ∧ l.endedAt - l.startedAt = M * 60 * 1000) ∧
    (stepW dateKeyOf
        (stepW dateKeyOf
          (runW dateKeyOf (stepW dateKeyOf s (WEvent.start now0 task))
            (syncTimes.map WEvent.sync))
          (WEvent.sync t))
        (WEvent.timeoutFire fireAt id)).status = Status.done ∧
    (∀ (t2 : ℤ) (id2 : String),
      stepW dateKeyOf
          (stepW dateKeyOf
            (stepW dateKeyOf
              (runW dateKeyOf (stepW dateKeyOf s (WEvent.start now0 task))
                (syncTimes.map WEvent.sync))
              (WEvent.sync t))
            (WEvent.timeoutFire fireAt id))
          (WEvent.timeoutFire t2 id2) =
        stepW dateKeyOf
          (stepW dateKeyOf
            (runW dateKeyOf (stepW dateKeyOf s (WEvent.start now0 task))
              (syncTimes.map WEvent.sync))
            (WEvent.sync t))
          (WEvent.timeoutFire fireAt id)) := by
  subst hM
  have hns : ¬ s.status = Status.running := by rcases hstart with h | h <;> simp [h]
  have hnm : ¬ s.setMinutes ≤ 0 := by omega
  have hs1 : stepW dateKeyOf s (WEvent.start now0 task) =
      { s with
          session := some ⟨now0, s.setMinutes, task⟩,
          remainingSeconds := s.setMinutes * 60,
          deadline := some (now0 + s.setMinutes * 60 * 1000),
          status := Status.running } := by
    simp only [stepW]
    rw [if_pos hstart, wStartHandler, if_neg (by simp [hns, hnm]), if_pos hstart]
  have h1st : (stepW dateKeyOf s (WEvent.start now0 task)).status = Status.running := by
    rw [hs1]
  have h1sess : (stepW dateKeyOf s (WEvent.start now0 task)).session =
      some ⟨now0, s.setMinutes, task⟩ := by rw [hs1]
  have h1dl : (stepW dateKeyOf s (WEvent.start now0 task)).deadline =
      some (now0 + s.setMinutes * 60 * 1000) := by rw [hs1]
  have h1logs : (stepW dateKeyOf s (WEvent.start now0 task)).logs = s.logs := by rw [hs1]
  obtain ⟨f1, f2, f3, f4, f5⟩ :=
    runW_syncs_frame dateKeyOf syncTimes (stepW dateKeyOf s (WEvent.start now0 task))
  have h2st := f1.trans h1st
  have h2sess := f2.trans h1sess
  have h2dl := f3.trans h1dl
  have h2logs := f4.trans h1logs
  have hsync :=
    stepW_sync_running dateKeyOf _ t (now0 + s.setMinutes * 60 * 1000) h2st h2dl
  rw [remainingOf_past _ _ ht] at hsync
  have h3st : (stepW dateKeyOf
      (runW dateKeyOf (stepW dateKeyOf s (WEvent.start now0 task)) (syncTimes.map WEvent.sync))
      (WEvent.sync t)).status = Status.running := by rw [hsync]; exact h2st
  have h3rem : (stepW dateKeyOf
      (runW dateKeyOf (stepW dateKeyOf s (WEvent.start now0 task)) (syncTimes.map WEvent.sync))
      (WEvent.sync t)).remainingSeconds = 0 := by rw [hsync]
  have h3dl : (stepW dateKeyOf
      (runW dateKeyOf (stepW dateKeyOf s (WEvent.start now0 task)) (syncTimes.map WEvent.sync))
      (WEvent.sync t)).deadline = some (now0 + s.setMinutes * 60 * 1000) := by
    rw [hsync]; exact h2dl
  have h3sess : (stepW dateKeyOf
      (runW dateKeyOf (stepW dateKeyOf s (WEvent.start now0 task)) (syncTimes.map WEvent.sync))
      (WEvent.sync t)).session = some ⟨now0, s.setMinutes, task⟩ := by
    rw [hsync]; exact h2sess
  have h3logs : (stepW dateKeyOf
      (runW dateKeyOf (stepW dateKeyOf s (WEvent.start now0 task)) (syncTimes.map WEvent.sync))
      (WEvent.sync t)).logs = s.logs := by rw [hsync]; exact h2logs
  have hfire := stepW_fire_finalizes dateKeyOf _ fireAt id (now0 + s.setMinutes * 60 * 1000)
    ⟨now0, s.setMinutes, task⟩ h3st h3rem h3dl h3sess
  have hmax : max 1 (s.setMinutes * 60) = s.setMinutes * 60 := by omega
  refine ⟨by rw [hfire]; simp [h3logs, hmax], ?_, by rw [hfire], ?_⟩
  · intro l hl
    rw [hfire] at hl
    simp only [h3logs, hmax, List.cons.injEq] at hl
    rw [← hl.1]
    refine ⟨by simp, by simp; try ring⟩
  · intro t2 id2
    exact stepW_fire_not_running dateKeyOf _ t2 id2 (by rw [hfire]; simp)

/-- Witness for claim C1: a one-minute session started at instant 0 with
two intermediate reconciliation callbacks and the zero-crossing callback
observed five seconds late. -/
theorem natural_timeout_exact_witness :
    (((initW 1 []).status = Status.idle ∨ (initW 1 []).status = Status.done) ∧
      (initW 1 []).setMinutes = 1 ∧ (1 : ℤ) ≤ 1 ∧ (1 : ℤ) ≤ 180 ∧
      (0 : ℤ) + 1 * 60 * 1000 ≤ 65000) ∧
    ((stepW dkFix
        (stepW dkFix
          (runW dkFix (stepW dkFix (initW 1 []) (WEvent.start 0 "t"))
            ([20000, 40000].map WEvent.sync))
          (WEvent.sync 65000))
        (WEvent.timeoutFire 65000 "u")).logs =
      ⟨"u", "t", 1, 1 * 60, 0, 0 + 1 * 60 * 1000, dkFix 0⟩ :: (initW 1 []).logs ∧
      (stepW dkFix
        (stepW dkFix
          (runW dkFix (stepW dkFix (initW 1 []) (WEvent.start 0 "t"))
            ([20000, 40000].map WEvent.sync))
          (WEvent.sync 65000))
        (WEvent.timeoutFire 65000 "u")).status = Status.done) := by
  have h := natural_timeout_exact dkFix (initW 1 []) 1 0 "t" [20000, 40000] 65000 65000 "u"
    (Or.inl (by decide)) (by decide) (by decide) (by decide) (by decide)
  exact ⟨⟨Or.inl (by decide), by decide, by decide, by decide, by decide⟩, h.1, h.2.2.1⟩

/-! ## The side-effect sink fires exactly on natural work timeouts
(part_003) -/

lemma stepB_notifications (dateKeyOf : ℤ → String) (s : BState) (e : BEvent) :
    (stepB dateKeyOf s e).notifications = notifAfter s e := by
  obtain ⟨m, r, b, st, md, sess, dl, lg, nt⟩ := s
  cases e <;> cases st <;> cases md <;> cases sess <;> cases dl <;>
    simp_all [stepB, notifAfter, bStartHandler, bPauseHandler, bResumeHandler, bResetHandler,
      bCompleteHandler, bApplyMinutes, bSyncHandler, bFireHandler, completeWorkSession,
      switchToBreak, switchToWork] <;>
    (try split_ifs) <;>
    simp_all

/-- Claim C8: the notification-and-sound sink is invoked exactly once, with
the session's (task, plannedMinutes), when a natural timeout finalises a
work session, and is never invoked by any other operation; in particular
manual completion and reset never invoke it. -/
theorem notification_sink_exactly_on_timeout (dateKeyOf : ℤ → String) (s : BState) (e : BEvent) :
    (stepB dateKeyOf s e).notifications = notifAfter s e ∧
    (∀ (now : ℤ) (id : String) (sess : SessionMeta),
      s.status = Status.running → s.remainingSeconds = 0 → s.mode = Mode.work →
      s.session = some sess →
      (stepB dateKeyOf s (BEvent.timeoutFire now id)).notifications =
        (sess.task, sess.plannedMinutes) :: s.notifications) ∧
    (∀ (now : ℤ) (id : String),
      (stepB dateKeyOf s (BEvent.complete now id)).notifications = s.notifications) ∧
    (stepB dateKeyOf s BEvent.reset).notifications = s.notifications := by
  refine ⟨stepB_notifications dateKeyOf s e, ?_, ?_, ?_⟩
  · intro now id sess h1 h2 h3 h4
    rw [stepB_notifications dateKeyOf s (BEvent.timeoutFire now id)]
    simp [notifAfter, h1, h2, h3, h4]
  · intro now id
    rw [stepB_notifications dateKeyOf s (BEvent.complete now id)]
    simp [notifAfter]
  · rw [stepB_notifications dateKeyOf s BEvent.reset]
    simp [notifAfter]

/-- Witness for claim C8 at a state about to finalise naturally. -/
theorem notification_sink_exactly_on_timeout_witness :
    (bZeroFix.status = Status.running ∧ bZeroFix.remainingSeconds = 0 ∧
      bZeroFix.mode = Mode.work ∧ bZeroFix.session = some ⟨0, 25, "w"⟩) ∧
    (stepB dkFix bZeroFix (BEvent.timeoutFire 1500000 "u")).notifications =
      (("w" : String), (25 : ℤ)) :: bZeroFix.notifications :=
  ⟨⟨by decide, by decide, by decide, by decide⟩,
    (notification_sink_exactly_on_timeout dkFix bZeroFix
        (BEvent.timeoutFire 1500000 "u")).2.1 1500000 "u" ⟨0, 25, "w"⟩
      (by decide) (by decide) (by decide) (by decide)⟩

/-! ## Manual completion (part_003) -/

lemma stepB_complete_eq (dateKeyOf : ℤ → String) (s : BState) (now : ℤ) (id : String)
    (sess : SessionMeta)
    (hmode : s.mode = Mode.work)
    (hstatus : s.status = Status.running ∨ s.status = Status.paused)
    (hsess : s.session = some sess) :
    stepB dateKeyOf s (BEvent.complete now id) =
      { s with
          logs := s.logs ++
            [⟨id, sess.task, sess.plannedMinutes,
              max 1 (min (sess.plannedMinutes * 60)
                (sess.plannedMinutes * 60 - s.remainingSeconds)),
              sess.startedAt, now, dateKeyOf sess.startedAt⟩],
          session := none,
          deadline := none,
          mode := Mode.brk,
          status := Status.idle,
          breakSuggestionSeconds := toBreakSeconds sess.plannedMinutes,
          remainingSeconds := toBreakSeconds sess.plannedMinutes } := by
  simp [stepB, hmode, hstatus, bCompleteHandler, hsess, completeWorkSession, switchToBreak]

/-- Claim C4 (amended): manual completion is possible only from running or
paused (in work mode); it finalises the retained session with
actualSeconds = plannedMinutes * 60 - remainingSeconds clamped into
[1, plannedMinutes * 60], writes exactly one log record with endedAt =
now, discards the session descriptor and the deadline, and transitions to
the suggested break: mode break with status idle (not to done). -/
theorem manual_complete_finalizes (dateKeyOf : ℤ → String) (s : BState) (now : ℤ) (id : String)
    (sess : SessionMeta)
    (hmode : s.mode = Mode.work)
    (hstatus : s.status = Status.running ∨ s.status = Status.paused)
    (hsess : s.session = some sess) :
    (stepB dateKeyOf s (BEvent.complete now id)).logs = s.logs ++
      [⟨id, sess.task, sess.plannedMinutes,
        max 1 (min (sess.plannedMinutes * 60) (sess.plannedMinutes * 60 - s.remainingSeconds)),
        sess.startedAt, now, dateKeyOf sess.startedAt⟩] ∧
    (stepB dateKeyOf s (BEvent.complete now id)).session = none ∧
    (stepB dateKeyOf s (BEvent.complete now id)).deadline = none ∧
    (stepB dateKeyOf s (BEvent.complete now id)).status = Status.idle ∧
    (stepB dateKeyOf s (BEvent.complete now id)).mode = Mode.brk ∧
    (stepB dateKeyOf s (BEvent.complete now id)).notifications = s.notifications ∧
    (∀ s2 : BState, s2.status = Status.idle ∨ s2.status = Status.done →
      stepB dateKeyOf s2 (BEvent.complete now id) = s2) := by
  have h := stepB_complete_eq dateKeyOf s now id sess hmode hstatus hsess
  refine ⟨by rw [h], by rw [h], by rw [h], by rw [h], by rw [h], by rw [h], ?_⟩
  intro s2 h2
  have hno : ¬ (s2.mode = Mode.work ∧ (s2.status = Status.running ∨ s2.status = Status.paused)) := by
    rcases h2 with h2 | h2 <;> simp [h2]
  simp [stepB, hno]

/-- Witness for the amended claim C4: manually completing the running
25-minute session of bRunFix at instant 30000. -/
theorem manual_complete_finalizes_witness :
    (bRunFix.mode = Mode.work ∧
      (bRunFix.status = Status.running ∨ bRunFix.status = Status.paused) ∧
      bRunFix.session = some ⟨0, 25, "w"⟩) ∧
    ((stepB dkFix bRunFix (BEvent.complete 30000 "u")).logs = bRunFix.logs ++
      [⟨"u", "w", 25, max 1 (min (25 * 60) (25 * 60 - bRunFix.remainingSeconds)),
        0, 30000, dkFix 0⟩] ∧
      (stepB dkFix bRunFix (BEvent.complete 30000 "u")).session = none ∧
      (stepB dkFix bRunFix (BEvent.complete 30000 "u")).deadline = none ∧
      (stepB dkFix bRunFix (BEvent.complete 30000 "u")).status = Status.idle ∧
      (stepB dkFix bRunFix (BEvent.complete 30000 "u")).mode = Mode.brk) := by
  have h := manual_complete_finalizes dkFix bRunFix 30000 "u" ⟨0, 25, "w"⟩
    (by decide) (Or.inl (by decide)) (by decide)
  exact ⟨⟨by decide, Or.inl (by decide), by decide⟩, h.1, h.2.1, h.2.2.1, h.2.2.2.1, h.2.2.2.2.1⟩

/-- Counterexample to claim C4 as stated: after a manual completion the
machine is in break mode with status idle, not done. -/
theorem manual_complete_not_done_counterexample :
    bManualFix.status = Status.idle ∧ bManualFix.mode = Mode.brk ∧
    ¬ bManualFix.status = Status.done := by decide

/-! ## Lane assignment: list access helpers -/

lemma getD_set_self (l : List ℤ) (i : ℕ) (a : ℤ) (h : i < l.length) :
    (l.set i a).getD i 0 = a := by
  induction l generalizing i with
  | nil => simp at h
  | cons x xs ih =>
    cases i with
    | zero => rfl
    | succ j => exact ih j (by simpa using h)

lemma getD_set_ne (l : List ℤ) (i j : ℕ) (a : ℤ) (h : i ≠ j) :
    (l.set i a).getD j 0 = l.getD j 0 := by
  induction l generalizing i j with
  | nil => rfl
  | cons x xs ih =>
    cases i with
    | zero =>
      cases j with
      | zero => exact absurd rfl h
      | succ k => rfl
    | succ i0 =>
      cases j with
      | zero => rfl
      | succ k => exact ih i0 k (by omega)

lemma getD_append_lt (l : List ℤ) (a : ℤ) (j : ℕ) (h : j < l.length) :
    ((l ++ [a]).getD j 0) = l.getD j 0 := by
  induction l generalizing j with
  | nil => simp at h
  | cons x xs ih =>
    cases j with
    | zero => rfl
    | succ k => exact ih k (by simpa using h)

lemma getD_append_len (l : List ℤ) (a : ℤ) : (l ++ [a]).getD l.length 0 = a := by
  induction l with
  | nil => rfl
  | cons x xs ih => simp [ih]

lemma getD_mem (l : List ℤ) (i : ℕ) (h : i < l.length) : l.getD i 0 ∈ l := by
  induction l generalizing i with
  | nil => simp at h
  | cons x xs ih =>
    cases i with
    | zero => exact List.mem_cons_self x xs
    | succ j => exact List.mem_cons_of_mem x (ih j (by simpa using h))

/-! ## Lane assignment: the free-lane scan -/

lemma findFreeLane_some (start : ℤ) (lanes : List ℤ) (i : ℕ)
    (h : findFreeLane start lanes = some i) :
    i < lanes.length ∧ lanes.getD i 0 ≤ start := by
  induction lanes generalizing i with
  | nil => simp [findFreeLane] at h
  | cons e rest ih =>
    by_cases he : e ≤ start
    · simp [findFreeLane, he] at h
      subst h
      exact ⟨by simp, he⟩
    · simp [findFreeLane, he, Option.map_eq_some'] at h
      obtain ⟨j, hj, hij⟩ := h
      obtain ⟨h1, h2⟩ := ih j hj
      subst hij
      exact ⟨by simpa using h1, h2⟩

lemma findFreeLane_none (start : ℤ) (lanes : List ℤ)
    (h : findFreeLane start lanes = none) :
    ∀ e ∈ lanes, start < e := by
  induction lanes with
  | nil => simp
  | cons e rest ih =>
    by_cases he : e ≤ start
    · simp [findFreeLane, he] at h
    · simp [findFreeLane, he, Option.map_eq_none'] at h
      intro x hx
      rcases List.mem_cons.mp hx with hx | hx
      · omega
      · exact ih h x hx

/-! ## Lane assignment: the stable sort -/

lemma insertLog_perm (x : TimeLog) (l : List TimeLog) : (insertLog x l).Perm (x :: l) := by
  induction l with
  | nil => exact List.Perm.refl _
  | cons y ys ih =>
    by_cases h : y.startedAt ≤ x.startedAt
    · simp only [insertLog, if_pos h]
      exact (ih.cons y).trans (List.Perm.swap x y ys)
    · simp only [insertLog, if_neg h]
      exact List.Perm.refl _

lemma mem_insertLog (z x : TimeLog) (l : List TimeLog) :
    z ∈ insertLog x l ↔ z = x ∨ z ∈ l := by
  rw [(insertLog_perm x l).mem_iff]
  simp

lemma insertLog_sorted (x : TimeLog) (l : List TimeLog) (h : l.Pairwise startLE) :
    (insertLog x l).Pairwise startLE := by
  induction l with
  | nil => simp [insertLog, List.pairwise_singleton]
  | cons y ys ih =>
    rcases List.pairwise_cons.mp h with ⟨hy, hys⟩
    by_cases hc : y.startedAt ≤ x.startedAt
    · simp only [insertLog, if_pos hc]
      refine List.pairwise_cons.mpr ⟨?_, ih hys⟩
      intro z hz
      rcases (mem_insertLog z x ys).mp hz with hz | hz
      · subst hz; exact hc
      · exact hy z hz
    · simp only [insertLog, if_neg hc]
      refine List.pairwise_cons.mpr ⟨?_, h⟩
      intro z hz
      rcases List.mem_cons.mp hz with hz | hz
      · subst hz; exact le_of_lt (lt_of_not_le hc)
      · exact le_trans (le_of_lt (lt_of_not_le hc)) (hy z hz)

lemma sortPush_perm : ∀ (xs acc : List TimeLog), (sortPush acc xs).Perm (acc ++ xs) := by
  intro xs
  induction xs with
  | nil => intro acc; simp [sortPush]
  | cons x rest ih =>
    intro acc
    exact (ih (insertLog x acc)).trans
      (((insertLog_perm x acc).append_right rest).trans List.perm_middle.symm)

lemma sortByStart_perm (logs : List TimeLog) : (sortByStart logs).Perm logs := by
  simpa [sortByStart] using sortPush_perm logs []

lemma sortPush_sorted : ∀ (xs acc : List TimeLog),
    acc.Pairwise startLE → (sortPush acc xs).Pairwise startLE := by
  intro xs
  induction xs with
  | nil => intro acc h; exact h
  | cons x rest ih => intro acc h; exact ih _ (insertLog_sorted x acc h)

lemma sortByStart_sorted (logs : List TimeLog) : (sortByStart logs).Pairwise startLE :=
  sortPush_sorted logs [] List.Pairwise.nil

/-! ## Lane assignment: the loop never drops, duplicates or edits a
record -/

lemma assignLoop_shape : ∀ (pend : List TimeLog) (lanes : List ℤ),
    ((assignLoop pend lanes).1.map LaneLog.toTimeLog = pend) ∧
    lanes.length ≤ (assignLoop pend lanes).2.length ∧
    ∀ x ∈ (assignLoop pend lanes).1, x.lane < (assignLoop pend lanes).2.length := by
  intro pend
  induction pend with
  | nil => intro lanes; simp [assignLoop]
  | cons log rest ih =>
    intro lanes
    cases hf : findFreeLane log.startedAt lanes with
    | some i =>
      obtain ⟨hmap, hlen, hlane⟩ := ih (lanes.set i log.endedAt)
      have hi := (findFreeLane_some _ _ _ hf).1
      refine ⟨by simp [assignLoop, hf, hmap], ?_, ?_⟩
      · simpa [assignLoop, hf] using by simpa using hlen
      · intro x hx
        simp only [assignLoop, hf] at hx ⊢
        rcases List.mem_cons.mp hx with hx | hx
        · subst hx
          simp only []
          have : lanes.length ≤ (assignLoop rest (lanes.set i log.endedAt)).2.length := by
            simpa using hlen
          omega
        · exact hlane x hx
    | none =>
      obtain ⟨hmap, hlen, hlane⟩ := ih (lanes ++ [log.endedAt])
      refine ⟨by simp [assignLoop, hf, hmap], ?_, ?_⟩
      · have : lanes.length ≤ (lanes ++ [log.endedAt]).length := by simp
        simp only [assignLoop, hf]
        omega
      · intro x hx
        simp only [assignLoop, hf] at hx ⊢
        rcases List.mem_cons.mp hx with hx | hx
        · subst hx
          simp only []
          have h1 : (lanes ++ [log.endedAt]).length ≤
              (assignLoop rest (lanes ++ [log.endedAt])).2.length := hlen
          simp only [List.length_append, List.length_singleton] at h1
          omega
        · exact hlane x hx

/-- Claim C10: the record list returned by assignLanes is exactly the input
sorted ascending by startedAt: forgetting the added lane field gives the
sorted list, which is a permutation of the input (nothing dropped,
duplicated or altered on any of the seven record fields), and every
assigned lane index is smaller than laneCount. -/
theorem assignLanes_frame (logs : List TimeLog) :
    ((assignLanes logs).logs.map LaneLog.toTimeLog = sortByStart logs) ∧
    (sortByStart logs).Perm logs ∧
    (sortByStart logs).Pairwise startLE ∧
    ∀ x ∈ (assignLanes logs).logs, x.lane < (assignLanes logs).laneCount := by
  obtain ⟨hmap, hlen, hlane⟩ := assignLoop_shape (sortByStart logs) []
  refine ⟨hmap, sortByStart_perm logs, sortByStart_sorted logs, ?_⟩
  intro x hx
  have h := hlane x hx
  have : (assignLoop (sortByStart logs) []).2.length ≤
      max 1 (assignLoop (sortByStart logs) []).2.length := le_max_right 1 _
  simp only [assignLanes]
  omega

/-! ## Lane assignment: counting helpers -/

lemma le_foldr_max (l : List ℕ) (n : ℕ) (h : n ∈ l) : n ≤ l.foldr max 0 := by
  induction l with
  | nil => simp at h
  | cons x xs ih =>
    rcases List.mem_cons.mp h with h | h
    · subst h; exact le_max_left _ _
    · exact le_trans (ih h) (le_max_right _ _)

lemma foldr_max_le (l : List ℕ) (n : ℕ) (h : ∀ m ∈ l, m ≤ n) : l.foldr max 0 ≤ n := by
  induction l with
  | nil => simp
  | cons x xs ih =>
    simp only [List.foldr_cons]
    exact max_le (h x (List.mem_cons_self x xs)) (ih fun m hm => h m (List.mem_cons_of_mem x hm))

lemma le_maxOverlap (logs : List TimeLog) (r : TimeLog) (hr : r ∈ logs) :
    overlapAt logs r.startedAt ≤ maxOverlap logs :=
  le_foldr_max _ _ (List.mem_map_of_mem (fun x => overlapAt logs x.startedAt) hr)

lemma maxOverlap_le (logs : List TimeLog) (n : ℕ)
    (h : ∀ r ∈ logs, overlapAt logs r.startedAt ≤ n) : maxOverlap logs ≤ n := by
  refine foldr_max_le _ n ?_
  intro m hm
  obtain ⟨r, hr, hrm⟩ := List.mem_map.mp hm
  exact hrm ▸ h r hr

lemma length_le_of_nodup_lt (l : List ℕ) (L : ℕ) (hn : l.Nodup) (hlt : ∀ n ∈ l, n < L) :
    l.length ≤ L := by
  classical
  have h1 : l.toFinset.card = l.length := List.toFinset_card_of_nodup hn
  have h2 : l.toFinset ⊆ Finset.range L := by
    intro n hn2
    exact Finset.mem_range.mpr (hlt n (List.mem_toFinset.mp hn2))
  have h3 := Finset.card_le_card h2
  rw [h1, Finset.card_range] at h3
  exact h3

lemma le_length_of_range_mem (l : List ℕ) (k : ℕ) (h : ∀ i, i < k → i ∈ l) :
    k ≤ l.length := by
  classical
  have h2 : Finset.range k ⊆ l.toFinset := by
    intro i hi
    exact List.mem_toFinset.mpr (h i (Finset.mem_range.mp hi))
  have h3 := Finset.card_le_card h2
  rw [Finset.card_range] at h3
  exact le_trans h3 (List.toFinset_card_le l)

/-! ## Lane assignment: the loop invariant is preserved -/

lemma assignLoop_inv (orig : List TimeLog)
    (horig : ∀ r ∈ orig, r.startedAt < r.endedAt) :
    ∀ (pend : List TimeLog) (out : List LaneLog) (lanes : List ℤ),
      LaneInv orig out lanes pend →
      LaneInv orig (out ++ (assignLoop pend lanes).1) (assignLoop pend lanes).2 [] := by
  intro pend
  induction pend with
  | nil =>
    intro out lanes h
    simpa [assignLoop] using h
  | cons log rest ih =>
    intro out lanes h
    obtain ⟨h1, h2, h3, h4, h5, h6, h7⟩ := h
    have hlogmem : log ∈ orig := h3.mem_iff.mp (by simp)
    have hlogwf : log.startedAt < log.endedAt := horig log hlogmem
    obtain ⟨h2head, h2rest⟩ := List.pairwise_cons.mp h2
    cases hf : findFreeLane log.startedAt lanes with
    | some i =>
      obtain ⟨hi, hfree⟩ := findFreeLane_some _ _ _ hf
      have hinv : LaneInv orig (out ++ [⟨log, i⟩]) (lanes.set i log.endedAt) rest := by
        refine ⟨?_, h2rest, ?_, ?_, ?_, ?_, ?_⟩
        · intro x hx y hy
          rcases List.mem_append.mp hx with hx | hx
          · exact h1 x hx y (List.mem_cons_of_mem log hy)
          · rcases List.mem_singleton.mp hx with rfl
            exact h2head y hy
        · have : ((out ++ [(⟨log, i⟩ : LaneLog)]).map LaneLog.toTimeLog) ++ rest =
              out.map LaneLog.toTimeLog ++ (log :: rest) := by
            simp
          rw [this]
          exact h3
        · rw [List.pairwise_append]
          refine ⟨h4, List.pairwise_singleton _ _, ?_⟩
          intro x hx y hy
          rcases List.mem_singleton.mp hy with rfl
          intro hlane
          have hx5 := (h5 x hx).2
          rw [hlane] at hx5
          exact le_trans hx5 hfree
        · intro x hx
          rcases List.mem_append.mp hx with hx | hx
          · obtain ⟨hxl, hxe⟩ := h5 x hx
            refine ⟨by simpa using hxl, ?_⟩
            by_cases hxi : x.lane = i
            · rw [hxi, getD_set_self lanes i log.endedAt hi]
              rw [hxi] at hxe
              exact le_trans hxe (le_trans hfree (le_of_lt hlogwf))
            · rw [getD_set_ne lanes i x.lane log.endedAt (fun hh => hxi hh.symm)]
              exact hxe
          · rcases List.mem_singleton.mp hx with rfl
            exact ⟨by simpa using hi, by rw [getD_set_self lanes i log.endedAt hi]⟩
        · intro j hj
          rw [List.length_set] at hj
          by_cases hji : j = i
          · refine ⟨⟨log, i⟩, by simp, hji.symm, ?_⟩
            rw [hji, getD_set_self lanes i log.endedAt hi]
          · obtain ⟨x, hx, hxl, hxe⟩ := h6 j hj
            exact ⟨x, List.mem_append_left _ hx, hxl,
              by rw [getD_set_ne lanes i j log.endedAt (fun hh => hji hh.symm)]; exact hxe⟩
        · rcases h7 with h7 | h7
          · subst h7; simp at hi
          · exact Or.inr (by simpa using h7)
      have hres := ih (out ++ [⟨log, i⟩]) (lanes.set i log.endedAt) hinv
      have hshape : assignLoop (log :: rest) lanes =
          (⟨log, i⟩ :: (assignLoop rest (lanes.set i log.endedAt)).1,
            (assignLoop rest (lanes.set i log.endedAt)).2) := by
        simp [assignLoop, hf]
      rw [hshape]
      simpa [List.append_assoc] using hres
    | none =>
      have hbusy := findFreeLane_none _ _ hf
      have hinv : LaneInv orig (out ++ [⟨log, lanes.length⟩]) (lanes ++ [log.endedAt]) rest := by
        refine ⟨?_, h2rest, ?_, ?_, ?_, ?_, ?_⟩
        · intro x hx y hy
          rcases List.mem_append.mp hx with hx | hx
          · exact h1 x hx y (List.mem_cons_of_mem log hy)
          · rcases List.mem_singleton.mp hx with rfl
            exact h2head y hy
        · have : ((out ++ [(⟨log, lanes.length⟩ : LaneLog)]).map LaneLog.toTimeLog) ++ rest =
              out.map LaneLog.toTimeLog ++ (log :: rest) := by
            simp
          rw [this]
          exact h3
        · rw [List.pairwise_append]
          refine ⟨h4, List.pairwise_singleton _ _, ?_⟩
          intro x hx y hy
          rcases List.mem_singleton.mp hy with rfl
          intro hlane
          have hxl := (h5 x hx).1
          have hx2 : x.lane = lanes.length := hlane
          exact absurd hx2 (by omega)
        · intro x hx
          rcases List.mem_append.mp hx with hx | hx
          · obtain ⟨hxl, hxe⟩ := h5 x hx
            refine ⟨by simp; omega, ?_⟩
            rw [getD_append_lt lanes log.endedAt x.lane hxl]
            exact hxe
          · rcases List.mem_singleton.mp hx with rfl
            constructor
            · show lanes.length < (lanes ++ [log.endedAt]).length
              simp
            · show log.endedAt ≤ (lanes ++ [log.endedAt]).getD lanes.length 0
              rw [getD_append_len lanes log.endedAt]
        · intro j hj
          simp only [List.length_append, List.length_singleton] at hj
          by_cases hjl : j < lanes.length
          · obtain ⟨x, hx, hxl, hxe⟩ := h6 j hjl
            exact ⟨x, List.mem_append_left _ hx, hxl,
              by rw [getD_append_lt lanes log.endedAt j hjl]; exact hxe⟩
          · have hj2 : j = lanes.length := by omega
            refine ⟨⟨log, lanes.length⟩, by simp, hj2.symm, ?_⟩
            rw [hj2, getD_append_len lanes log.endedAt]
        · refine Or.inr ?_
          simp only [List.length_append, List.length_singleton]
          set t := log.startedAt with htdef
          set k := lanes.length with hkdef
          have hwitness : ∀ j, j < k → ∃ x ∈ out, x.lane = j ∧
              covers t x.toTimeLog = true := by
            intro j hj
            obtain ⟨x, hx, hxl, hxe⟩ := h6 j hj
            refine ⟨x, hx, hxl, ?_⟩
            have hxs : x.startedAt ≤ t := h1 x hx log (List.mem_cons_self log rest)
            have hxe2 : t < x.endedAt := by
              have := hbusy (lanes.getD j 0) (getD_mem lanes j hj)
              rw [hxe] at this
              exact this
            simp [covers, hxs, hxe2]
          have hGmem : ∀ j, j < k →
              j ∈ (out.filter (fun x => covers t x.toTimeLog)).map
                (fun x : LaneLog => x.lane) := by
            intro j hj
            obtain ⟨x, hx, hxl, hxc⟩ := hwitness j hj
            exact List.mem_map.mpr ⟨x, List.mem_filter.mpr ⟨hx, hxc⟩, hxl⟩
          have hk : k ≤ (out.filter (fun x => covers t x.toTimeLog)).length := by
            have := le_length_of_range_mem _ k hGmem
            simpa using this
          have hcount1 : (out.map LaneLog.toTimeLog).countP (covers t) =
              (out.filter (fun x => covers t x.toTimeLog)).length := by
            rw [List.countP_map]
            rw [List.countP_eq_length_filter]
            rfl
          have hcovlog : covers t log = true := by
            simp [covers, hlogwf]
          have hcount2 : 1 ≤ (log :: rest).countP (covers t) := by
            have : 0 < (log :: rest).countP (covers t) :=
              List.countP_pos_iff.mpr ⟨log, List.mem_cons_self log rest, hcovlog⟩
            omega
          have hperm : overlapAt orig t = (out.map LaneLog.toTimeLog).countP (covers t) +
              (log :: rest).countP (covers t) := by
            rw [overlapAt, ← h3.countP_eq (covers t), List.countP_append]
          have hoverlap : k + 1 ≤ overlapAt orig t := by
            rw [hperm, hcount1]
            omega
          exact le_trans hoverlap (le_maxOverlap orig log hlogmem)
      have hres := ih (out ++ [⟨log, lanes.length⟩]) (lanes ++ [log.endedAt]) hinv
      have hshape : assignLoop (log :: rest) lanes =
          (⟨log, lanes.length⟩ :: (assignLoop rest (lanes ++ [log.endedAt])).1,
            (assignLoop rest (lanes ++ [log.endedAt])).2) := by
        simp [assignLoop, hf]
      rw [hshape]
      simpa [List.append_assoc] using hres

/-! ## Lane assignment: consequences of the invariant -/

lemma assignLanes_inv (logs : List TimeLog) (h : ∀ r ∈ logs, r.startedAt < r.endedAt) :
    LaneInv logs (assignLoop (sortByStart logs) []).1 (assignLoop (sortByStart logs) []).2 [] := by
  have h0 : LaneInv logs [] [] (sortByStart logs) :=
    ⟨by simp, sortByStart_sorted logs, by simpa using sortByStart_perm logs, by simp,
      by simp, by simp, Or.inl rfl⟩
  simpa using assignLoop_inv logs h (sortByStart logs) [] [] h0

lemma overlapAt_le_laneLen (logs : List TimeLog) (h : ∀ r ∈ logs, r.startedAt < r.endedAt)
    (t : ℤ) : overlapAt logs t ≤ (assignLoop (sortByStart logs) []).2.length := by
  obtain ⟨-, -, i3, i4, i5, -, -⟩ := assignLanes_inv logs h
  have hperm : (List.map LaneLog.toTimeLog (assignLoop (sortByStart logs) []).1).Perm logs := by
    simpa using i3
  rw [overlapAt, ← hperm.countP_eq, List.countP_map, List.countP_eq_length_filter]
  have hF4 := i4.filter (fun x => covers t x.toTimeLog)
  have hFne : ((assignLoop (sortByStart logs) []).1.filter
      (fun x => covers t x.toTimeLog)).Pairwise (fun x y : LaneLog => x.lane ≠ y.lane) := by
    refine List.Pairwise.imp_of_mem ?_ hF4
    intro a b ha hb hab heq
    have h2 := hab heq
    have hca := (List.mem_filter.mp ha).2
    have hcb := (List.mem_filter.mp hb).2
    simp only [covers, Bool.and_eq_true, decide_eq_true_eq] at hca hcb
    omega
  have hnodup : (((assignLoop (sortByStart logs) []).1.filter
      (fun x => covers t x.toTimeLog)).map (fun x : LaneLog => x.lane)).Nodup :=
    List.pairwise_map.mpr hFne
  have hlt : ∀ n ∈ ((assignLoop (sortByStart logs) []).1.filter
      (fun x => covers t x.toTimeLog)).map (fun x : LaneLog => x.lane),
      n < (assignLoop (sortByStart logs) []).2.length := by
    intro n hn
    obtain ⟨x, hx, rfl⟩ := List.mem_map.mp hn
    exact (i5 x (List.mem_of_mem_filter hx)).1
  have := length_le_of_nodup_lt _ _ hnodup hlt
  simpa using this

lemma laneLen_le_maxOverlap (logs : List TimeLog)
    (h : ∀ r ∈ logs, r.startedAt < r.endedAt) :
    (assignLoop (sortByStart logs) []).2.length ≤ maxOverlap logs := by
  obtain ⟨-, -, -, -, -, -, i7⟩ := assignLanes_inv logs h
  rcases i7 with i7 | i7
  · rw [i7]; simp
  · exact i7

lemma overlapAt_le_maxOverlap (logs : List TimeLog)
    (h : ∀ r ∈ logs, r.startedAt < r.endedAt) (t : ℤ) :
    overlapAt logs t ≤ maxOverlap logs :=
  le_trans (overlapAt_le_laneLen logs h t) (laneLen_le_maxOverlap logs h)

lemma one_le_laneLen (logs : List TimeLog) (h : ∀ r ∈ logs, r.startedAt < r.endedAt)
    (hnil : logs ≠ []) : 1 ≤ (assignLoop (sortByStart logs) []).2.length := by
  obtain ⟨-, -, i3, -, i5, -, -⟩ := assignLanes_inv logs h
  have hperm : (List.map LaneLog.toTimeLog (assignLoop (sortByStart logs) []).1).Perm logs := by
    simpa using i3
  cases hOUT : (assignLoop (sortByStart logs) []).1 with
  | nil =>
    rw [hOUT] at hperm
    simp only [List.map_nil] at hperm
    exact absurd hperm.symm.eq_nil hnil
  | cons x xs =>
    have hx : x ∈ (assignLoop (sortByStart logs) []).1 := by
      rw [hOUT]; exact List.mem_cons_self x xs
    have := (i5 x hx).1
    omega

lemma laneCount_eq_max (logs : List TimeLog)
    (h : ∀ r ∈ logs, r.startedAt < r.endedAt) :
    (assignLanes logs).laneCount = max 1 (maxOverlap logs) := by
  by_cases hnil : logs = []
  · subst hnil; rfl
  · have hle := laneLen_le_maxOverlap logs h
    have hge := maxOverlap_le logs _ (fun r hr => overlapAt_le_laneLen logs h r.startedAt)
    have h1 := one_le_laneLen logs h hnil
    show max 1 (assignLoop (sortByStart logs) []).2.length = max 1 (maxOverlap logs)
    omega

lemma assignLanes_pairwise (logs : List TimeLog)
    (h : ∀ r ∈ logs, r.startedAt < r.endedAt) :
    ((assignLanes logs).logs).Pairwise
      (fun x y => x.lane = y.lane → x.endedAt ≤ y.startedAt) :=
  (assignLanes_inv logs h).2.2.2.1

lemma pair_wf (a b : TimeLog) (ha : a.startedAt < a.endedAt) (hb : b.startedAt < b.endedAt) :
    ∀ r ∈ [a, b], r.startedAt < r.endedAt := by
  intro r hr
  rcases List.mem_cons.mp hr with rfl | hr
  · exact ha
  · rcases List.mem_singleton.mp hr with rfl
    exact hb

lemma overlapAt_pair (a b : TimeLog) (t : ℤ) :
    overlapAt [a, b] t =
      (if covers t b then 1 else 0) + (if covers t a then 1 else 0) := by
  simp [overlapAt, List.countP_cons]

lemma maxOverlap_pair (a b : TimeLog) :
    maxOverlap [a, b] = max (overlapAt [a, b] a.startedAt) (overlapAt [a, b] b.startedAt) := by
  simp [maxOverlap]

lemma laneCount_pair_overlap (a b : TimeLog)
    (ha : a.startedAt < a.endedAt) (hb : b.startedAt < b.endedAt) (hov : overlaps a b) :
    (assignLanes [a, b]).laneCount = 2 := by
  obtain ⟨h1, h2⟩ := hov
  rw [laneCount_eq_max [a, b] (pair_wf a b ha hb)]
  have hmo : maxOverlap [a, b] = 2 := by
    rw [maxOverlap_pair]
    rcases le_total a.startedAt b.startedAt with hab | hab
    · have o2 : overlapAt [a, b] b.startedAt = 2 := by
        rw [overlapAt_pair]
        have hca : covers b.startedAt a = true := by
          simp only [covers, Bool.and_eq_true, decide_eq_true_eq]
          exact ⟨hab, h2⟩
        have hcb : covers b.startedAt b = true := by
          simp only [covers, Bool.and_eq_true, decide_eq_true_eq]
          exact ⟨le_refl _, hb⟩
        rw [hca, hcb]
        simp
      have o1 : overlapAt [a, b] a.startedAt ≤ 2 := by
        rw [overlapAt]
        exact le_trans (List.countP_le_length _) (by simp)
      omega
    · have o1 : overlapAt [a, b] a.startedAt = 2 := by
        rw [overlapAt_pair]
        have hca : covers a.startedAt a = true := by
          simp only [covers, Bool.and_eq_true, decide_eq_true_eq]
          exact ⟨le_refl _, ha⟩
        have hcb : covers a.startedAt b = true := by
          simp only [covers, Bool.and_eq_true, decide_eq_true_eq]
          exact ⟨hab, h1⟩
        rw [hca, hcb]
        simp
      have o2 : overlapAt [a, b] b.startedAt ≤ 2 := by
        rw [overlapAt]
        exact le_trans (List.countP_le_length _) (by simp)
      omega
  rw [hmo]
  decide

lemma laneCount_pair_seq (a b : TimeLog)
    (ha : a.startedAt < a.endedAt) (hb : b.startedAt < b.endedAt)
    (hseq : a.endedAt ≤ b.startedAt) :
    (assignLanes [a, b]).laneCount = 1 := by
  rw [laneCount_eq_max [a, b] (pair_wf a b ha hb)]
  have o1 : overlapAt [a, b] a.startedAt = 1 := by
    rw [overlapAt_pair]
    have hca : covers a.startedAt a = true := by
      simp only [covers, Bool.and_eq_true, decide_eq_true_eq]
      exact ⟨le_refl _, ha⟩
    have hcb : covers a.startedAt b = false := by
      rw [Bool.eq_false_iff]
      intro hc
      simp only [covers, Bool.and_eq_true, decide_eq_true_eq] at hc
      omega
    rw [hca, hcb]
    simp
  have o2 : overlapAt [a, b] b.startedAt = 1 := by
    rw [overlapAt_pair]
    have hca : covers b.startedAt a = false := by
      rw [Bool.eq_false_iff]
      intro hc
      simp only [covers, Bool.and_eq_true, decide_eq_true_eq] at hc
      omega
    have hcb : covers b.startedAt b = true := by
      simp only [covers, Bool.and_eq_true, decide_eq_true_eq]
      exact ⟨le_refl _, hb⟩
    rw [hca, hcb]
    simp
  rw [maxOverlap_pair, o1, o2]
  decide

/-- Claim C2: for well-formed log records (positive duration, as the data
model guarantees via actualSeconds at least 1), assignLanes produces
laneCount = max(1, maximum number of simultaneously overlapping
intervals): the greedy lowest-free-lane assignment over the records sorted
by startedAt is optimal, and the empty input yields laneCount 1 with an
empty record list. -/
theorem assignLanes_laneCount_optimal (logs : List TimeLog)
    (h : ∀ r ∈ logs, r.startedAt < r.endedAt) :
    (assignLanes logs).laneCount = max 1 (maxOverlap logs) ∧
    (∀ t : ℤ, overlapAt logs t ≤ maxOverlap logs) ∧
    (assignLanes ([] : List TimeLog)).laneCount = 1 ∧
    (assignLanes ([] : List TimeLog)).logs = [] :=
  ⟨laneCount_eq_max logs h, overlapAt_le_maxOverlap logs h, rfl, rfl⟩

/-- Witness for claim C2 at the three-record example (A 09:00-09:30,
B 09:10-09:20, C 09:25-09:40): two lanes are needed and suffice. -/
theorem assignLanes_laneCount_optimal_witness :
    (∀ r ∈ exLogs, r.startedAt < r.endedAt) ∧
    ((assignLanes exLogs).laneCount = max 1 (maxOverlap exLogs) ∧
      (∀ t : ℤ, overlapAt exLogs t ≤ maxOverlap exLogs) ∧
      (assignLanes ([] : List TimeLog)).laneCount = 1 ∧
      (assignLanes ([] : List TimeLog)).logs = []) ∧
    (assignLanes exLogs).laneCount = 2 :=
  ⟨by decide, assignLanes_laneCount_optimal exLogs (by decide), by decide⟩

/-- Claim C3: for well-formed log records, any two distinct records that
assignLanes puts in the same lane occupy disjoint half-open intervals (the
later one starts at or after the earlier one ends), so overlapping records
always get distinct lanes; two overlapping records alone need two lanes,
two sequential records share one lane. -/
theorem assignLanes_same_lane_disjoint (logs : List TimeLog)
    (h : ∀ r ∈ logs, r.startedAt < r.endedAt) :
    ((assignLanes logs).logs).Pairwise
      (fun x y => x.lane = y.lane → x.endedAt ≤ y.startedAt) ∧
    ((assignLanes logs).logs).Pairwise
      (fun x y => overlaps x.toTimeLog y.toTimeLog → x.lane ≠ y.lane) ∧
    (∀ a b : TimeLog, a.startedAt < a.endedAt → b.startedAt < b.endedAt →
      overlaps a b → (assignLanes [a, b]).laneCount = 2) ∧
    (∀ a b : TimeLog, a.startedAt < a.endedAt → b.startedAt < b.endedAt →
      a.endedAt ≤ b.startedAt → (assignLanes [a, b]).laneCount = 1) := by
  refine ⟨assignLanes_pairwise logs h, ?_, laneCount_pair_overlap, laneCount_pair_seq⟩
  refine (assignLanes_pairwise logs h).imp ?_
  intro x y hxy hov heq
  exact absurd (hxy heq) (not_le.mpr hov.2)

/-- Witness for claim C3 at the three-record example. -/
theorem assignLanes_same_lane_disjoint_witness :
    (∀ r ∈ exLogs, r.startedAt < r.endedAt) ∧
    (((assignLanes exLogs).logs).Pairwise
        (fun x y => x.lane = y.lane → x.endedAt ≤ y.startedAt) ∧
      ((assignLanes exLogs).logs).Pairwise
        (fun x y => overlaps x.toTimeLog y.toTimeLog → x.lane ≠ y.lane) ∧
      (∀ a b : TimeLog, a.startedAt < a.endedAt → b.startedAt < b.endedAt →
        overlaps a b → (assignLanes [a, b]).laneCount = 2) ∧
      (∀ a b : TimeLog, a.startedAt < a.endedAt → b.startedAt < b.endedAt →
        a.endedAt ≤ b.startedAt → (assignLanes [a, b]).laneCount = 1)) :=
  ⟨by decide, assignLanes_same_lane_disjoint exLogs (by decide)⟩

end Pomodoro
